import Mathlib

/-!
Shallow embedding of behavioral_models.py (DecideNet behavioral core):
trial-wise TD belief updating, utility transformation, choice-probability
computation (simple and softmax rules) and the G-square badness-of-fit
statistic, together with theorems checking the specification's claims.

Modelling conventions:
  - numpy float arrays become lists of real pairs; the 4-D behavioral array
    becomes a function from the four indices to the reals plus the trial-axis
    length (beh.shape 2);
  - the simple rule divides each trial's expected-value pair by its sum; a
    zero denominator makes numpy emit a non-finite (NaN) row, modelled here
    as the Option value none;
  - G-square is valued in the extended reals so that a log of zero is bottom
    (the float negative infinity numpy produces) and -2 times it is top.
-/

namespace DecideNet

noncomputable section

/-- Field-index metadata for the behavioral array: the positions of the named
fields on the fourth axis and the index of the punishment condition on the
second axis, as resolved in the source by list index lookup on the meta dict. -/
structure Meta where
  rwdIdx : Nat
  responseIdx : Nat
  magnLeftIdx : Nat
  magnRightIdx : Nat
  punIdx : Nat

/-- Behavioral array indexed by subject, condition, trial and field, plus the
length of its trial axis. -/
structure Beh where
  nTrials : Nat
  data : Nat → Nat → Nat → Nat → ℝ

/-- One trial of the TD update, pair ordered (box 0, box 1): the two
assignments at lines 24-25 of behavioral_models.py, both reading the
previous row. -/
def valueStep (alpha : ℝ) (v : ℝ × ℝ) (rwd : ℝ) : ℝ × ℝ :=
  (v.1 + alpha * ((-rwd + 1) / 2 - v.1), v.2 + alpha * ((rwd + 1) / 2 - v.2))

/-- Outcome column of the selected slice with its final entry dropped,
mirroring the slicing by [:-1] at line 21 of the source. -/
def rewardedSeq (beh : Beh) (meta : Meta) (subject condition : Nat) : List ℝ :=
  ((List.range beh.nTrials).map fun t => beh.data subject condition t meta.rwdIdx).dropLast

/-- TD learning beliefs (estimate_values in the source): a row per trial,
row 0 the agnostic prior (0.5, 0.5), later rows produced by folding the
update over the truncated outcome column. -/
def estimate_values (beh : Beh) (meta : Meta) (subject condition : Nat)
    (alpha : ℝ) : List (ℝ × ℝ) :=
  List.scanl (valueStep alpha) (1 / 2, 1 / 2) (rewardedSeq beh meta subject condition)

/-- Utility transformation (estimate_utilities in the source): a signed power
transform of the absolute offered magnitudes, sign set by the condition. -/
def estimate_utilities (beh : Beh) (meta : Meta) (subject condition : Nat)
    (gamma delta : ℝ) : List (ℝ × ℝ) :=
  let factor : ℝ := if condition = meta.punIdx then -1 * gamma else 1
  (List.range beh.nTrials).map fun t =>
    (factor * |beh.data subject condition t meta.magnLeftIdx| ^ delta,
     factor * |beh.data subject condition t meta.magnRightIdx| ^ delta)

/-- Choice rule selector: the two accepted values of the kind argument. -/
inductive ChoiceKind where
  | simple
  | softmax
deriving DecidableEq

/-- Expected value per trial per box: the elementwise product of utilities
and beliefs computed at line 77 of the source. -/
def expected_value (util val : List (ℝ × ℝ)) : List (ℝ × ℝ) :=
  List.zipWith (fun u v => (u.1 * v.1, u.2 * v.2)) util val

/-- Sum of the expected values over all trials and both boxes. -/
def totalEV (ev : List (ℝ × ℝ)) : ℝ := (ev.map fun e => e.1 + e.2).sum

/-- Per-trial normalization of the simple rule; none models the non-finite
(NaN) row numpy emits when the trial's expected values sum to zero. -/
def normalizeRow (e : ℝ × ℝ) : Option (ℝ × ℝ) :=
  if e.1 + e.2 = 0 then none
  else some (e.1 / (e.1 + e.2), e.2 / (e.1 + e.2))

/-- Per-trial softmax with inverse temperature theta. -/
def softmaxRow (theta : ℝ) (e : ℝ × ℝ) : Option (ℝ × ℝ) :=
  some (Real.exp (theta * e.1) / (Real.exp (theta * e.1) + Real.exp (theta * e.2)),
        Real.exp (theta * e.2) / (Real.exp (theta * e.1) + Real.exp (theta * e.2)))

/-- Choice probabilities (estimate_choice_probability in the source): under
the simple rule, per-trial normalization with the columns swapped for every
trial when the total expected value is negative; under the softmax rule,
per-trial softmax. -/
def estimate_choice_probability (val util : List (ℝ × ℝ)) (kind : ChoiceKind)
    (theta : ℝ) : List (Option (ℝ × ℝ)) :=
  let ev := expected_value util val
  match kind with
  | ChoiceKind.simple =>
    let p := ev.map normalizeRow
    if totalEV ev < 0 then p.map (Option.map Prod.swap) else p
  | ChoiceKind.softmax => ev.map (softmaxRow theta)

/-- Expected-value pair of trial t, read off the expected-value trace. -/
def evAt (util val : List (ℝ × ℝ)) (t : Nat) : ℝ × ℝ :=
  (expected_value util val).getD t (0, 0)

/-- Extended-real logarithm: bottom at zero (the float negative infinity
numpy emits for log 0), the real logarithm elsewhere. -/
def elog (x : ℝ) : EReal := if x = 0 then ⊥ else ((Real.log x : ℝ) : EReal)

/-- Badness of fit (g_square in the source): -2 times the accumulated log
likelihood, where a trial contributes the log of the chosen box's
probability and a trial whose response is neither -1 nor 1 contributes
nothing. -/
def g_square (beh : Beh) (meta : Meta) (subject condition : Nat)
    (p : List (ℝ × ℝ)) : EReal :=
  (-2 : EReal) *
    ((List.range beh.nTrials).map fun t =>
      if beh.data subject condition t meta.responseIdx = -1 then
        elog (p.getD t (0, 0)).1
      else if beh.data subject condition t meta.responseIdx = 1 then
        elog (p.getD t (0, 0)).2
      else 0).sum

/-- Real-valued log-likelihood sum appearing in the specification's G-square
formula, defined for comparison with g_square when no contributing
probability vanishes. -/
def gSquareRealSum (beh : Beh) (meta : Meta) (subject condition : Nat)
    (p : List (ℝ × ℝ)) : ℝ :=
  ((List.range beh.nTrials).map fun t =>
    if beh.data subject condition t meta.responseIdx = -1 then
      Real.log (p.getD t (0, 0)).1
    else if beh.data subject condition t meta.responseIdx = 1 then
      Real.log (p.getD t (0, 0)).2
    else 0).sum

/-- Model 1: one free parameter, simple rule with default utility parameters.
The simple branch never reads theta, so it is passed as 0 here where the
source leaves it None. -/
def model1 (beh : Beh) (meta : Meta) (subject condition : Nat) (alpha : ℝ) :
    List (ℝ × ℝ) × List (ℝ × ℝ) × List (Option (ℝ × ℝ)) :=
  let val := estimate_values beh meta subject condition alpha
  let util := estimate_utilities beh meta subject condition 1 1
  (val, util, estimate_choice_probability val util ChoiceKind.simple 0)

/-- Model 2: two free parameters, softmax rule with default utility
parameters. -/
def model2 (beh : Beh) (meta : Meta) (subject condition : Nat)
    (alpha theta : ℝ) :
    List (ℝ × ℝ) × List (ℝ × ℝ) × List (Option (ℝ × ℝ)) :=
  let val := estimate_values beh meta subject condition alpha
  let util := estimate_utilities beh meta subject condition 1 1
  (val, util, estimate_choice_probability val util ChoiceKind.softmax theta)

/-- Model 3: four free parameters, softmax rule with supplied utility
parameters. -/
def model3 (beh : Beh) (meta : Meta) (subject condition : Nat)
    (alpha theta gamma delta : ℝ) :
    List (ℝ × ℝ) × List (ℝ × ℝ) × List (Option (ℝ × ℝ)) :=
  let val := estimate_values beh meta subject condition alpha
  let util := estimate_utilities beh meta subject condition gamma delta
  (val, util, estimate_choice_probability val util ChoiceKind.softmax theta)

/-- Metadata used in the concrete examples: rwd in field 0, response in
field 1, magnitudes in fields 2 and 3, punishment condition at index 1. -/
def metaEx : Meta := ⟨0, 1, 2, 3, 1⟩

/-- Two-trial slice whose outcome column is (1, -1). -/
def behEx2 : Beh :=
  ⟨2, fun _ _ t f => if f = 0 then (if t = 0 then 1 else -1) else 0⟩

/-- Three-trial slice whose outcome column is (1, -1, 1). -/
def behEx3 : Beh :=
  ⟨3, fun _ _ t f =>
    if f = 0 then (if t = 0 then 1 else if t = 1 then -1 else 1) else 0⟩

/-- Three-trial slice whose outcome column is (1, -1, -1): it agrees with
behEx3 except on the final trial's outcome. -/
def behEx3v : Beh :=
  ⟨3, fun _ _ t f =>
    if f = 0 then (if t = 0 then 1 else if t = 1 then -1 else -1) else 0⟩

/-- One-trial slice whose response column is (-1). -/
def behResp1 : Beh := ⟨1, fun _ _ _ f => if f = 1 then -1 else 0⟩

end

end DecideNet

namespace DecideNet

/-- Helper: the first entry of a scanl is its initial accumulator. -/
theorem scanl_getD_zero {α β : Type} (f : β → α → β) (b d : β) (l : List α) :
    (List.scanl f b l).getD 0 d = b := by
  cases l <;> simp [List.scanl_nil, List.scanl_cons]

/-- Helper: each later entry of a scanl is the step applied to the previous
entry and the corresponding input element. -/
theorem scanl_getD_succ {α β : Type} (f : β → α → β) (b d : β) (e : α)
    (l : List α) (t : Nat) (ht : t + 1 < (List.scanl f b l).length) :
    (List.scanl f b l).getD (t + 1) d =
      f ((List.scanl f b l).getD t d) (l.getD t e) := by
  induction l generalizing b t with
  | nil => simp [List.scanl_nil] at ht
  | cons a l ih =>
    rw [List.scanl_cons, List.singleton_append]
    cases t with
    | zero =>
      rw [List.getD_cons_succ, List.getD_cons_zero, List.getD_cons_zero,
        scanl_getD_zero]
    | succ t =>
      rw [List.getD_cons_succ, List.getD_cons_succ, List.getD_cons_succ]
      apply ih
      rw [List.scanl_cons, List.singleton_append, List.length_cons] at ht
      omega

/-- Helper: an invariant held by the initial accumulator and preserved by the
step holds at every entry of a scanl. -/
theorem scanl_all {α β : Type} (P : β → Prop) (Q : α → Prop) {f : β → α → β}
    {b : β} {l : List α} (hb : P b) (hl : ∀ a ∈ l, Q a)
    (hstep : ∀ x a, P x → Q a → P (f x a)) :
    ∀ y ∈ List.scanl f b l, P y := by
  induction l generalizing b with
  | nil =>
    intro y hy
    rw [List.scanl_nil, List.mem_singleton] at hy
    exact hy ▸ hb
  | cons a l ih =>
    intro y hy
    rw [List.scanl_cons, List.singleton_append, List.mem_cons] at hy
    rcases hy with hy | hy
    · exact hy ▸ hb
    · exact ih (hstep b a hb (hl a (List.mem_cons_self a l)))
        (fun x hx => hl x (List.mem_cons_of_mem a hx)) y hy

/-- Helper: indexing a map over a range below the bound. -/
theorem getD_map_range {α : Type} (g : Nat → α) {n t : Nat} (ht : t < n)
    (d : α) : (((List.range n).map g).getD t d) = g t := by
  rw [List.getD_eq_getElem?_getD, List.getElem?_map, List.getElem?_range ht]
  rfl

/-- Helper: the truncated outcome column is the map of the outcome lookup
over the first nTrials - 1 trials. -/
theorem rewardedSeq_eq (beh : Beh) (meta : Meta) (s c : Nat) :
    rewardedSeq beh meta s c =
      (List.range (beh.nTrials - 1)).map fun t => beh.data s c t meta.rwdIdx := by
  rw [rewardedSeq, List.dropLast_eq_take, ← List.map_take, List.length_map,
    List.length_range, List.take_range, Nat.min_eq_left (Nat.sub_le _ _)]

/-- Helper: length of the belief trace. -/
theorem estimate_values_length (beh : Beh) (meta : Meta) (s c : Nat)
    (alpha : ℝ) :
    (estimate_values beh meta s c alpha).length = beh.nTrials - 1 + 1 := by
  rw [estimate_values, List.length_scanl, rewardedSeq_eq, List.length_map,
    List.length_range]

/-- Helper: a convex step from a point of the unit interval toward a target
in the unit interval stays in the unit interval. -/
theorem convex_step_bounds (alpha x tgt : ℝ) (h0 : 0 ≤ alpha) (h1 : alpha ≤ 1)
    (hx0 : 0 ≤ x) (hx1 : x ≤ 1) (ht0 : 0 ≤ tgt) (ht1 : tgt ≤ 1) :
    0 ≤ x + alpha * (tgt - x) ∧ x + alpha * (tgt - x) ≤ 1 := by
  constructor
  · nlinarith [mul_nonneg (by linarith : (0:ℝ) ≤ 1 - alpha) hx0,
      mul_nonneg h0 ht0]
  · nlinarith [mul_nonneg (by linarith : (0:ℝ) ≤ 1 - alpha)
      (by linarith : (0:ℝ) ≤ 1 - x),
      mul_nonneg h0 (by linarith : (0:ℝ) ≤ 1 - tgt)]

/-- C1 (amended): for a slice with at least one trial, estimate_values
returns a belief trace of length nTrials (not nTrials + 1) whose entry 0 is
the agnostic prior (0.5, 0.5) and whose entry t + 1, for every trial t with
t + 1 < nTrials, is obtained from entry t and the trial-t outcome by the TD
update equations; in particular alpha = 0.5 on a three-trial slice whose
first two outcomes are 1 and -1 yields the trace
((0.5, 0.5), (0.25, 0.75), (0.625, 0.375)). -/
theorem C1_belief_trace (beh : Beh) (meta : Meta) (s c : Nat) (alpha : ℝ)
    (hn : 1 ≤ beh.nTrials) :
    (estimate_values beh meta s c alpha).length = beh.nTrials ∧
    (estimate_values beh meta s c alpha).getD 0 (0, 0) = (1 / 2, 1 / 2) ∧
    (∀ t, t + 1 < beh.nTrials →
      ((estimate_values beh meta s c alpha).getD (t + 1) (0, 0)).2 =
        ((estimate_values beh meta s c alpha).getD t (0, 0)).2
          + alpha * ((beh.data s c t meta.rwdIdx + 1) / 2
            - ((estimate_values beh meta s c alpha).getD t (0, 0)).2) ∧
      ((estimate_values beh meta s c alpha).getD (t + 1) (0, 0)).1 =
        ((estimate_values beh meta s c alpha).getD t (0, 0)).1
          + alpha * ((-beh.data s c t meta.rwdIdx + 1) / 2
            - ((estimate_values beh meta s c alpha).getD t (0, 0)).1)) ∧
    estimate_values behEx3 metaEx 0 0 (1 / 2) =
      [(1 / 2, 1 / 2), (1 / 4, 3 / 4), (5 / 8, 3 / 8)] := by
  refine ⟨?_, ?_, ?_, ?_⟩
  · rw [estimate_values_length]; omega
  · rw [estimate_values, scanl_getD_zero]
  · intro t ht
    have hlen : t + 1 <
        (List.scanl (valueStep alpha) ((1:ℝ)/2, (1:ℝ)/2)
          (rewardedSeq beh meta s c)).length := by
      rw [List.length_scanl, rewardedSeq_eq, List.length_map, List.length_range]
      omega
    have hget : (rewardedSeq beh meta s c).getD t 0 =
        beh.data s c t meta.rwdIdx := by
      rw [rewardedSeq_eq]
      exact getD_map_range _ (by omega) 0
    have hrec := scanl_getD_succ (valueStep alpha) (1/2, 1/2) (0, 0) 0
      (rewardedSeq beh meta s c) t hlen
    rw [estimate_values, hrec, hget, valueStep]
    exact ⟨rfl, rfl⟩
  · have h3 : List.range 3 = [0, 1, 2] := rfl
    simp [estimate_values, rewardedSeq, behEx3, metaEx, h3, List.scanl,
      valueStep]
    norm_num

/-- C1 counterexample: on a two-trial slice with outcome column (1, -1) and
alpha = 0.5 the returned trace has length 2, not nTrials + 1 = 3, and is not
the three-entry trace the claim specifies. -/
theorem C1_counterexample :
    (estimate_values behEx2 metaEx 0 0 (1 / 2)).length = 2 ∧
    behEx2.nTrials + 1 = 3 ∧
    estimate_values behEx2 metaEx 0 0 (1 / 2) ≠
      [(1 / 2, 1 / 2), (1 / 4, 3 / 4), (5 / 8, 3 / 8)] := by
  have hl : (estimate_values behEx2 metaEx 0 0 (1 / 2)).length = 2 := by
    rw [estimate_values_length]
    rfl
  refine ⟨hl, rfl, fun h => ?_⟩
  have := congrArg List.length h
  rw [hl] at this
  simp at this

/-- C1 witness: the amended theorem instantiated on the three-trial
example slice. -/
theorem C1_witness :
    1 ≤ behEx3.nTrials ∧
    (estimate_values behEx3 metaEx 0 0 (1 / 2)).length = behEx3.nTrials ∧
    estimate_values behEx3 metaEx 0 0 (1 / 2) =
      [(1 / 2, 1 / 2), (1 / 4, 3 / 4), (5 / 8, 3 / 8)] :=
  ⟨by norm_num [behEx3],
   (C1_belief_trace behEx3 metaEx 0 0 (1 / 2) (by norm_num [behEx3])).1,
   (C1_belief_trace behEx3 metaEx 0 0 (1 / 2) (by norm_num [behEx3])).2.2.2⟩

/-- C5: for a learning rate in the unit interval and a slice whose outcome
column takes only the values -1 and 1, every component of every entry of the
belief trace lies in the unit interval. -/
theorem C5_belief_bounds (beh : Beh) (meta : Meta) (s c : Nat) (alpha : ℝ)
    (h0 : 0 ≤ alpha) (h1 : alpha ≤ 1)
    (hrwd : ∀ t, t < beh.nTrials →
      beh.data s c t meta.rwdIdx = -1 ∨ beh.data s c t meta.rwdIdx = 1) :
    ∀ v ∈ estimate_values beh meta s c alpha,
      0 ≤ v.1 ∧ v.1 ≤ 1 ∧ 0 ≤ v.2 ∧ v.2 ≤ 1 := by
  rw [estimate_values]
  apply scanl_all (fun v : ℝ × ℝ => 0 ≤ v.1 ∧ v.1 ≤ 1 ∧ 0 ≤ v.2 ∧ v.2 ≤ 1)
    (fun r : ℝ => r = -1 ∨ r = 1)
  · norm_num
  · intro a ha
    rw [rewardedSeq_eq] at ha
    obtain ⟨t, ht, rfl⟩ := List.mem_map.mp ha
    rw [List.mem_range] at ht
    exact hrwd t (by omega)
  · intro x a hx ha
    obtain ⟨hx1, hx2, hx3, hx4⟩ := hx
    have hb1 : 0 ≤ (-a + 1) / 2 ∧ (-a + 1) / 2 ≤ 1 := by
      rcases ha with rfl | rfl <;> norm_num
    have hb2 : 0 ≤ (a + 1) / 2 ∧ (a + 1) / 2 ≤ 1 := by
      rcases ha with rfl | rfl <;> norm_num
    have hc1 := convex_step_bounds alpha x.1 ((-a + 1) / 2) h0 h1 hx1 hx2
      hb1.1 hb1.2
    have hc2 := convex_step_bounds alpha x.2 ((a + 1) / 2) h0 h1 hx3 hx4
      hb2.1 hb2.2
    exact ⟨hc1.1, hc1.2, hc2.1, hc2.2⟩

/-- C5 witness: the bounds theorem instantiated on the three-trial example
slice at the belief pair of trial 1. -/
theorem C5_witness :
    0 ≤ ((1:ℝ)/4, (3:ℝ)/4).1 ∧ ((1:ℝ)/4, (3:ℝ)/4).1 ≤ 1 ∧
    0 ≤ ((1:ℝ)/4, (3:ℝ)/4).2 ∧ ((1:ℝ)/4, (3:ℝ)/4).2 ≤ 1 :=
  C5_belief_bounds behEx3 metaEx 0 0 (1 / 2) (by norm_num) (by norm_num)
    (by
      intro t ht
      have ht' : t < 3 := ht
      interval_cases t <;> norm_num [behEx3, metaEx])
    ((1:ℝ)/4, (3:ℝ)/4)
    (by
      have h3 : List.range 3 = [0, 1, 2] := rfl
      simp [estimate_values, rewardedSeq, behEx3, metaEx, h3, List.scanl,
        valueStep]
      norm_num)

/-- C6: each trial's utility pair is factor times the absolute magnitude
raised to delta for each box, where factor is minus gamma on the punishment
condition and 1 otherwise; with gamma = 1 and delta = 1 this is the absolute
magnitude with the condition's sign, and a zero magnitude gives utility 0. -/
theorem C6_utilities (beh : Beh) (meta : Meta) (s c : Nat) (gamma delta : ℝ)
    (t : Nat) (ht : t < beh.nTrials) :
    (estimate_utilities beh meta s c gamma delta).getD t (0, 0) =
      ((if c = meta.punIdx then -gamma else 1)
          * |beh.data s c t meta.magnLeftIdx| ^ delta,
       (if c = meta.punIdx then -gamma else 1)
          * |beh.data s c t meta.magnRightIdx| ^ delta) ∧
    (gamma = 1 → delta = 1 →
      (estimate_utilities beh meta s c gamma delta).getD t (0, 0) =
        ((if c = meta.punIdx then -|beh.data s c t meta.magnLeftIdx|
          else |beh.data s c t meta.magnLeftIdx|),
         (if c = meta.punIdx then -|beh.data s c t meta.magnRightIdx|
          else |beh.data s c t meta.magnRightIdx|))) ∧
    (delta = 1 → beh.data s c t meta.magnLeftIdx = 0 →
      ((estimate_utilities beh meta s c gamma delta).getD t (0, 0)).1 = 0) := by
  have hmain : (estimate_utilities beh meta s c gamma delta).getD t (0, 0) =
      ((if c = meta.punIdx then -gamma else 1)
          * |beh.data s c t meta.magnLeftIdx| ^ delta,
       (if c = meta.punIdx then -gamma else 1)
          * |beh.data s c t meta.magnRightIdx| ^ delta) := by
    simp only [estimate_utilities]
    rw [getD_map_range _ ht]
    split_ifs <;> norm_num
  refine ⟨hmain, ?_, ?_⟩
  · intro hg hd
    rw [hmain, hg, hd]
    split_ifs <;> simp [Real.rpow_one]
  · intro hd hz
    rw [hmain, hd, hz]
    simp

/-- C6 witness: the utilities theorem instantiated on the three-trial
example slice, whose magnitudes are zero, at trial 0. -/
theorem C6_witness :
    ((estimate_utilities behEx3 metaEx 0 0 1 1).getD 0 (0, 0)).1 = 0 :=
  (C6_utilities behEx3 metaEx 0 0 1 1 0 (by norm_num [behEx3])).2.2 rfl
    (by norm_num [behEx3, metaEx])

/-- Helper: indexing a mapped list below its length. -/
theorem getD_map {α β : Type} (f : α → β) (l : List α) (t : Nat)
    (ht : t < l.length) (d : β) (e : α) :
    (l.map f).getD t d = f (l.getD t e) := by
  rw [List.getD_eq_getElem?_getD, List.getElem?_map,
    List.getElem?_eq_getElem ht, List.getD_eq_getElem?_getD,
    List.getElem?_eq_getElem ht]
  rfl

/-- C2: under the simple rule, every trial whose expected values have a
nonzero sum gets the expected-value pair normalized by that sum, with the two
columns swapped for every trial exactly when the total expected value over
all trials and both boxes is negative; the swap condition reads only the
global total, never the trial. -/
theorem C2_simple_rule (val util : List (ℝ × ℝ)) (theta : ℝ) (t : Nat)
    (ht : t < (expected_value util val).length)
    (hden : (evAt util val t).1 + (evAt util val t).2 ≠ 0) :
    (estimate_choice_probability val util ChoiceKind.simple theta).getD t none =
      if totalEV (expected_value util val) < 0 then
        some ((evAt util val t).2 / ((evAt util val t).1 + (evAt util val t).2),
              (evAt util val t).1 / ((evAt util val t).1 + (evAt util val t).2))
      else
        some ((evAt util val t).1 / ((evAt util val t).1 + (evAt util val t).2),
              (evAt util val t).2 / ((evAt util val t).1 + (evAt util val t).2)) := by
  simp only [evAt] at hden ⊢
  simp only [estimate_choice_probability]
  by_cases hf : totalEV (expected_value util val) < 0
  · rw [if_pos hf, if_pos hf,
      getD_map (Option.map Prod.swap) _ t (by simpa using ht) none none,
      getD_map normalizeRow _ t ht none (0, 0), normalizeRow, if_neg hden]
    rfl
  · rw [if_neg hf, if_neg hf,
      getD_map normalizeRow _ t ht none (0, 0), normalizeRow, if_neg hden]

/-- C2 witness: the simple-rule theorem instantiated on a one-trial input
with beliefs (1, 1) and utilities (1, 2), yielding the pair (1/3, 2/3). -/
theorem C2_witness :
    (estimate_choice_probability [((1:ℝ), 1)] [((1:ℝ), 2)]
      ChoiceKind.simple 0).getD 0 none = some (1 / 3, 2 / 3) :=
  (C2_simple_rule [((1:ℝ), 1)] [((1:ℝ), 2)] 0 0
    (by simp [expected_value])
    (by norm_num [evAt, expected_value])).trans
    (by norm_num [evAt, expected_value, totalEV])

/-- C3 (amended): under the simple rule a trial whose expected values sum to
zero yields the undefined marker none (the NaN row numpy silently emits) in
the output trace: the code supplies no fallback pair and raises no error. -/
theorem C3_degenerate_trial (val util : List (ℝ × ℝ)) (theta : ℝ) (t : Nat)
    (ht : t < (expected_value util val).length)
    (hden : (evAt util val t).1 + (evAt util val t).2 = 0) :
    (estimate_choice_probability val util ChoiceKind.simple theta).getD t
      (some (0, 0)) = none := by
  simp only [evAt] at hden
  simp only [estimate_choice_probability]
  by_cases hf : totalEV (expected_value util val) < 0
  · rw [if_pos hf,
      getD_map (Option.map Prod.swap) _ t (by simpa using ht) (some (0, 0))
        none,
      getD_map normalizeRow _ t ht none (0, 0), normalizeRow, if_pos hden]
    rfl
  · rw [if_neg hf,
      getD_map normalizeRow _ t ht (some (0, 0)) (0, 0), normalizeRow,
      if_pos hden]

/-- C3 counterexample: on a one-trial input with both utilities zero (hence
both expected values zero) the simple rule returns the undefined entry none,
not the fallback pair (0.5, 0.5), and no error interrupts the computation:
the claim that one of the two handling policies is implemented is false. -/
theorem C3_counterexample :
    estimate_choice_probability [((1:ℝ)/2, 1/2)] [((0:ℝ), 0)]
      ChoiceKind.simple 0 = [none] ∧
    (none : Option (ℝ × ℝ)) ≠ some (1/2, 1/2) := by
  refine ⟨?_, by simp⟩
  simp [estimate_choice_probability, expected_value, totalEV, normalizeRow]

/-- C3 witness: the amended theorem instantiated on the one-trial degenerate
input. -/
theorem C3_witness :
    (estimate_choice_probability [((1:ℝ)/2, 1/2)] [((0:ℝ), 0)]
      ChoiceKind.simple 0).getD 0 (some (0, 0)) = none :=
  C3_degenerate_trial [((1:ℝ)/2, 1/2)] [((0:ℝ), 0)] 0 0
    (by simp [expected_value])
    (by norm_num [evAt, expected_value])

/-- C4 (amended): under the softmax rule every entry of the output trace, for
any theta and any expected-value pairs, is a defined probability pair with
both components in the unit interval and summing exactly to one; the simple
rule gives no such guarantee. -/
theorem C4_softmax_probabilities (val util : List (ℝ × ℝ)) (theta : ℝ) :
    ∀ q ∈ estimate_choice_probability val util ChoiceKind.softmax theta,
      q ≠ none ∧ 0 ≤ (q.getD (0, 0)).1 ∧ (q.getD (0, 0)).1 ≤ 1 ∧
        0 ≤ (q.getD (0, 0)).2 ∧ (q.getD (0, 0)).2 ≤ 1 ∧
        (q.getD (0, 0)).1 + (q.getD (0, 0)).2 = 1 := by
  intro q hq
  simp only [estimate_choice_probability] at hq
  obtain ⟨e, he, rfl⟩ := List.mem_map.mp hq
  have ha : 0 < Real.exp (theta * e.1) := Real.exp_pos _
  have hb : 0 < Real.exp (theta * e.2) := Real.exp_pos _
  have hs : 0 < Real.exp (theta * e.1) + Real.exp (theta * e.2) := by linarith
  refine ⟨by simp [softmaxRow], ?_⟩
  dsimp only [softmaxRow, Option.getD_some]
  refine ⟨div_nonneg ha.le hs.le, ?_, div_nonneg hb.le hs.le, ?_, ?_⟩
  · rw [div_le_one hs]; linarith
  · rw [div_le_one hs]; linarith
  · rw [div_add_div_same, div_self hs.ne']

/-- C4 counterexample: under the simple rule with beliefs (1, 1) and
utilities (2, -1) the single trial's entry is the pair (2, -1), whose first
component exceeds 1 and whose second is negative: the claim fails for the
simple rule. -/
theorem C4_counterexample :
    ¬ (∀ q ∈ estimate_choice_probability [((1:ℝ), 1)] [((2:ℝ), -1)]
        ChoiceKind.simple 0,
        q ≠ none ∧ 0 ≤ (q.getD (0, 0)).1 ∧ (q.getD (0, 0)).1 ≤ 1 ∧
          0 ≤ (q.getD (0, 0)).2 ∧ (q.getD (0, 0)).2 ≤ 1 ∧
          (q.getD (0, 0)).1 + (q.getD (0, 0)).2 = 1) := by
  intro h
  have hout : estimate_choice_probability [((1:ℝ), 1)] [((2:ℝ), -1)]
      ChoiceKind.simple 0 = [some (2, -1)] := by
    norm_num [estimate_choice_probability, expected_value, totalEV,
      normalizeRow]
  have h2 := (h (some (2, -1)) (by rw [hout]; simp)).2.2.1
  norm_num at h2

/-- C4 witness: the softmax theorem instantiated on a one-trial input with
zero utilities and theta = 1, whose single entry is the pair (0.5, 0.5). -/
theorem C4_witness :
    (some ((1:ℝ)/2, (1:ℝ)/2) : Option (ℝ × ℝ)) ≠ none ∧
    0 ≤ ((some ((1:ℝ)/2, (1:ℝ)/2)).getD ((0:ℝ), (0:ℝ))).1 ∧
    ((some ((1:ℝ)/2, (1:ℝ)/2)).getD ((0:ℝ), (0:ℝ))).1 ≤ 1 ∧
    0 ≤ ((some ((1:ℝ)/2, (1:ℝ)/2)).getD ((0:ℝ), (0:ℝ))).2 ∧
    ((some ((1:ℝ)/2, (1:ℝ)/2)).getD ((0:ℝ), (0:ℝ))).2 ≤ 1 ∧
    ((some ((1:ℝ)/2, (1:ℝ)/2)).getD ((0:ℝ), (0:ℝ))).1 +
      ((some ((1:ℝ)/2, (1:ℝ)/2)).getD ((0:ℝ), (0:ℝ))).2 = 1 :=
  C4_softmax_probabilities [((1:ℝ), 1)] [((0:ℝ), 0)] 1
    (some ((1:ℝ)/2, (1:ℝ)/2))
    (by
      have : estimate_choice_probability [((1:ℝ), 1)] [((0:ℝ), 0)]
          ChoiceKind.softmax 1 = [some ((1:ℝ)/2, (1:ℝ)/2)] := by
        norm_num [estimate_choice_probability, expected_value, softmaxRow,
          Real.exp_zero]
      rw [this]
      simp)

/-- Helper: the coercion of a real list sum is the sum of the coerced list. -/
theorem coe_list_sum (l : List ℝ) :
    ((l.sum : ℝ) : EReal) = (l.map fun x : ℝ => (x : EReal)).sum := by
  induction l with
  | nil => rfl
  | cons a l ih =>
    rw [List.sum_cons, List.map_cons, List.sum_cons, ← ih]
    exact EReal.coe_add a l.sum

/-- Helper: coercion of a sum of reals mapped over a range. -/
theorem coe_sum_map (n : Nat) (f : Nat → ℝ) :
    ((((List.range n).map f).sum : ℝ) : EReal) =
      ((List.range n).map fun t => ((f t : ℝ) : EReal)).sum := by
  rw [coe_list_sum, List.map_map]
  rfl

/-- Helper: an extended-real list sum with a bottom element is bottom. -/
theorem sum_eq_bot_of_mem {l : List EReal} (h : ⊥ ∈ l) : l.sum = ⊥ := by
  induction l with
  | nil => simp at h
  | cons a l ih =>
    rcases List.mem_cons.mp h with h1 | h2
    · rw [List.sum_cons, ← h1, EReal.bot_add]
    · rw [List.sum_cons, ih h2, EReal.add_bot]

/-- C7: when every contributing probability is positive, g_square equals -2
times the real sum over trials of the log probability of the chosen box,
where a trial with response -1 contributes the log of the left probability,
response 1 the log of the right probability, and any other response nothing;
and if every response of the slice is 0 then g_square is 0 whatever the
probability trace. -/
theorem C7_g_square (beh : Beh) (meta : Meta) (s c : Nat) (p : List (ℝ × ℝ))
    (hpos : ∀ t, t < beh.nTrials →
      (beh.data s c t meta.responseIdx = -1 → 0 < (p.getD t (0, 0)).1) ∧
      (beh.data s c t meta.responseIdx = 1 → 0 < (p.getD t (0, 0)).2)) :
    g_square beh meta s c p =
      (((-2 : ℝ) * gSquareRealSum beh meta s c p : ℝ) : EReal) ∧
    ((∀ t, t < beh.nTrials → beh.data s c t meta.responseIdx = 0) →
      g_square beh meta s c p = 0) := by
  constructor
  · rw [g_square, gSquareRealSum]
    have hmap : ((List.range beh.nTrials).map fun t =>
        if beh.data s c t meta.responseIdx = -1 then elog (p.getD t (0, 0)).1
        else if beh.data s c t meta.responseIdx = 1 then
          elog (p.getD t (0, 0)).2
        else 0) =
        ((List.range beh.nTrials).map fun t =>
          ((if beh.data s c t meta.responseIdx = -1 then
              Real.log (p.getD t (0, 0)).1
            else if beh.data s c t meta.responseIdx = 1 then
              Real.log (p.getD t (0, 0)).2
            else 0 : ℝ) : EReal)) := by
      apply List.map_congr_left
      intro t htm
      rw [List.mem_range] at htm
      by_cases h1 : beh.data s c t meta.responseIdx = -1
      · rw [if_pos h1, if_pos h1, elog, if_neg ((hpos t htm).1 h1).ne']
      · by_cases h2 : beh.data s c t meta.responseIdx = 1
        · rw [if_neg h1, if_pos h2, if_neg h1, if_pos h2, elog,
            if_neg ((hpos t htm).2 h2).ne']
        · rw [if_neg h1, if_neg h2, if_neg h1, if_neg h2]
          rfl
    rw [hmap, ← coe_sum_map,
      show (-2 : EReal) = ((-2 : ℝ) : EReal) from rfl, ← EReal.coe_mul]
  · intro hz
    rw [g_square]
    have hmap : ((List.range beh.nTrials).map fun t =>
        if beh.data s c t meta.responseIdx = -1 then elog (p.getD t (0, 0)).1
        else if beh.data s c t meta.responseIdx = 1 then
          elog (p.getD t (0, 0)).2
        else 0) = (List.range beh.nTrials).map fun _ => (0 : EReal) := by
      apply List.map_congr_left
      intro t htm
      rw [List.mem_range] at htm
      rw [hz t htm]
      norm_num
    rw [hmap]
    simp

/-- C7 witness: the g_square theorem instantiated on a one-trial slice with
response -1 and probability pair (0.5, 0.5). -/
theorem C7_witness :
    g_square behResp1 metaEx 0 0 [((1:ℝ)/2, 1/2)] =
      (((-2 : ℝ) * gSquareRealSum behResp1 metaEx 0 0 [((1:ℝ)/2, 1/2)] : ℝ) :
        EReal) :=
  (C7_g_square behResp1 metaEx 0 0 [((1:ℝ)/2, 1/2)]
    (by
      intro t ht
      have ht1 : t < 1 := ht
      interval_cases t
      constructor
      · intro h
        norm_num
      · intro h
        norm_num [behResp1, metaEx] at h)).1

/-- C8: if some trial's response selects a box whose probability is exactly
zero, g_square is plus infinity (top of the extended reals): the infinite
statistic is returned as a value, no error interrupts the computation. -/
theorem C8_zero_probability_infinite (beh : Beh) (meta : Meta) (s c : Nat)
    (p : List (ℝ × ℝ)) (t : Nat) (ht : t < beh.nTrials)
    (hz : (beh.data s c t meta.responseIdx = -1 ∧ (p.getD t (0, 0)).1 = 0) ∨
          (beh.data s c t meta.responseIdx = 1 ∧ (p.getD t (0, 0)).2 = 0)) :
    g_square beh meta s c p = ⊤ := by
  rw [g_square]
  have hbot : (⊥ : EReal) ∈ (List.range beh.nTrials).map fun t =>
      if beh.data s c t meta.responseIdx = -1 then elog (p.getD t (0, 0)).1
      else if beh.data s c t meta.responseIdx = 1 then elog (p.getD t (0, 0)).2
      else 0 := by
    refine List.mem_map.mpr ⟨t, List.mem_range.mpr ht, ?_⟩
    rcases hz with ⟨hr, hp⟩ | ⟨hr, hp⟩
    · rw [hr, hp]
      norm_num [elog]
    · rw [hr, hp]
      norm_num [elog]
  rw [sum_eq_bot_of_mem hbot,
    show (-2 : EReal) = ((-2 : ℝ) : EReal) from rfl]
  exact EReal.coe_mul_bot_of_neg (by norm_num)

/-- C8 witness: the infinite-fit theorem instantiated on a one-trial slice
with response -1 and a zero left-box probability. -/
theorem C8_witness :
    g_square behResp1 metaEx 0 0 [((0:ℝ), 1/2)] = ⊤ :=
  C8_zero_probability_infinite behResp1 metaEx 0 0 [((0:ℝ), 1/2)] 0
    (by norm_num [behResp1])
    (Or.inl ⟨by norm_num [behResp1, metaEx], by norm_num⟩)

/-- C10: two behavioral arrays that agree on the selected slice's outcome
column at every trial before the last produce identical belief traces: the
final trial's outcome is never consumed by the update. -/
theorem C10_last_outcome_unused (beh1 beh2 : Beh) (meta : Meta) (s c : Nat)
    (alpha : ℝ) (hn : beh1.nTrials = beh2.nTrials)
    (h : ∀ t, t + 1 < beh1.nTrials →
      beh1.data s c t meta.rwdIdx = beh2.data s c t meta.rwdIdx) :
    estimate_values beh1 meta s c alpha = estimate_values beh2 meta s c alpha := by
  rw [estimate_values, estimate_values]
  congr 1
  rw [rewardedSeq_eq, rewardedSeq_eq, ← hn]
  apply List.map_congr_left
  intro t ht
  rw [List.mem_range] at ht
  exact h t (by omega)

/-- C10 witness: the three-trial example slice and its variant differing only
in the final trial's outcome produce the same belief trace. -/
theorem C10_witness :
    estimate_values behEx3 metaEx 0 0 (1 / 2) =
      estimate_values behEx3v metaEx 0 0 (1 / 2) :=
  C10_last_outcome_unused behEx3 behEx3v metaEx 0 0 (1 / 2) rfl
    (by
      intro t ht
      have h3 : t + 1 < 3 := ht
      have ht' : t < 2 := by omega
      interval_cases t <;> norm_num [behEx3, behEx3v, metaEx])

end DecideNet
